import Mathlib

/-!
Shallow embedding of `src/src/lib.rs` (crate `prime_sieve`).

Modelling conventions:
* `usize` is `Nat` (all arithmetic here stays far below `2 ^ 64`, no wrapping occurs).
* `Vec<bool>` is `List Bool`.
* A Rust panic (out-of-bounds `Vec` indexing) is `none`; normal completion is `some`.
  `setIdx` / `getIdx` model the panicking index operator `v[i]`.
* `Result<T, String>` is `Except SieveError T`; the two error strings produced by the
  source are represented by the two constructors of `SieveError`, and
  `SieveError.render` reproduces the exact message text, so an `outOfBounds` error
  carries both the offending value and the configured limit, as the formatted string does.
* The `while` loop of `process_ahead` is written with explicit fuel; the entry fuel
  `s.max + 1` strictly exceeds the number of iterations whenever `target ≥ 1`
  (the loop body is only ever reached with `target ≥ 2` in the source).
* The bound `(self.max as f64).sqrt() as usize` of `fill` is modelled by `natSqrt s.max`:
  for every `max < 2 ^ 52` the two agree exactly (the `f64` conversion of `max` is exact
  there, `sqrt` is correctly rounded, and the rounding error is below the distance from
  `√max` to the nearest integers), and larger tables are unallocatable.
-/

namespace PrimeSieve

/-- The `Sieve` struct of `lib.rs`: fields `max`, `sieve_table`, `filled`. -/
structure Sieve where
  max : Nat
  sieve_table : List Bool
  filled : Bool
deriving DecidableEq

/-- The two error conditions produced by `lookup` (in the source, `String` values). -/
inductive SieveError where
  | notPopulated : SieveError
  | outOfBounds : Nat → Nat → SieveError
deriving DecidableEq

/-- The exact error strings the source builds:
`"Sieve not populated!"` and `format!("{} is out of this sieve's bounds (max {})", target, max)`. -/
def SieveError.render : SieveError → String
  | SieveError.notPopulated => "Sieve not populated!"
  | SieveError.outOfBounds target max =>
      Nat.repr target ++ " is out of this sieve's bounds (max " ++ Nat.repr max ++ ")"

/-- Model of the panicking write `v[i] = b`: `none` is the out-of-bounds panic. -/
def setIdx (l : List Bool) (i : Nat) (b : Bool) : Option (List Bool) :=
  if i < l.length then some (l.set i b) else none

/-- Model of the panicking read `v[i]`: `none` is the out-of-bounds panic. -/
def getIdx (l : List Bool) (i : Nat) : Option Bool :=
  l.get? i

/-- `Sieve::unfilled(max)`: table `(0..=max).map(|_| true).collect()`, i.e. `max + 1`
copies of `true`; `filled = false`. -/
def unfilled (max : Nat) : Sieve :=
  { max := max, sieve_table := List.replicate (max + 1) true, filled := false }

/-- The `while cur_target <= self.max` loop of `Sieve::process_ahead`, with fuel.
`target += 0` would loop forever in the source; with fuel that run returns `none`. -/
def markMultiples (target max : Nat) : Nat → Nat → List Bool → Option (List Bool)
  | 0, _, _ => none
  | fuel + 1, cur_target, t =>
    if cur_target ≤ max then
      match setIdx t cur_target false with
      | none => none
      | some t' => markMultiples target max fuel (cur_target + target) t'
    else some t

/-- `Sieve::process_ahead(target)`: early return when `sieve_table[target]` is already
false, otherwise mark `2*target, 3*target, …` false while `≤ max`. -/
def process_ahead (s : Sieve) (target : Nat) : Option Sieve :=
  match getIdx s.sieve_table target with
  | none => none
  | some b =>
    if !b then some s
    else
      match markMultiples target s.max (s.max + 1) (2 * target) s.sieve_table with
      | none => none
      | some t => some { s with sieve_table := t }

/-- Largest `k ≤ r` with `k * k ≤ n` (and `0` when there is none). -/
def sqrtGo (n : Nat) : Nat → Nat
  | 0 => 0
  | r + 1 => if (r + 1) * (r + 1) ≤ n then r + 1 else sqrtGo n r

/-- `⌊√n⌋`, the value of `(n as f64).sqrt() as usize` for every realistic `n`
(see the header comment); written with structural recursion so that it evaluates. -/
def natSqrt (n : Nat) : Nat :=
  sqrtGo n n

/-- The `for i in 2..=bound` loop of `Sieve::fill`, unrolled by iteration count:
`fillLoop s i count` runs `process_ahead` on `i, i+1, …, i+count-1`. -/
def fillLoop : Sieve → Nat → Nat → Option Sieve
  | s, _, 0 => some s
  | s, i, count + 1 =>
    match process_ahead s i with
    | none => none
    | some s' => fillLoop s' (i + 1) count

/-- `Sieve::fill()`: no-op when `filled`; otherwise force indices 0 and 1 to false
(the write to index 1 panics when the table has length 1, i.e. `max = 0`),
run `process_ahead` for `i in 2..=natSqrt max` (the range has `natSqrt max - 1`
elements), then set `filled`. -/
def fill (s : Sieve) : Option Sieve :=
  if s.filled then some s
  else
    match setIdx s.sieve_table 0 false with
    | none => none
    | some t0 =>
      match setIdx t0 1 false with
      | none => none
      | some t1 =>
        match fillLoop { s with sieve_table := t1 } 2 (natSqrt s.max - 1) with
        | none => none
        | some s2 => some { s2 with filled := true }

/-- `Sieve::new(max)`: `unfilled` then `fill`. -/
def new (max : Nat) : Option Sieve :=
  fill (unfilled max)

/-- `Sieve::lookup(target)`: `filled` check first, then bounds check, then the
(panicking) table read. -/
def lookup (s : Sieve) (target : Nat) : Option (Except SieveError Bool) :=
  if !s.filled then some (Except.error SieveError.notPopulated)
  else if s.max < target then some (Except.error (SieveError.outOfBounds target s.max))
  else
    match getIdx s.sieve_table target with
    | none => none
    | some b => some (Except.ok b)

/-- The `for i in target` loop of `Sieve::filter`, carrying the `result` accumulator;
`lookup(i)?` propagates the first error. -/
def filterGo (s : Sieve) : List Nat → List Nat → Option (Except SieveError (List Nat))
  | [], result => some (Except.ok result)
  | i :: rest, result =>
    match lookup s i with
    | none => none
    | some (Except.error e) => some (Except.error e)
    | some (Except.ok true) => filterGo s rest (result ++ [i])
    | some (Except.ok false) => filterGo s rest result

/-- `Sieve::filter(target)`: keep exactly the elements whose lookup yields `true`. -/
def Sieve.filter (s : Sieve) (target : List Nat) : Option (Except SieveError (List Nat)) :=
  filterGo s target []

/-- Ground-truth primality as the claims state it: `i ≥ 2` and `i` has no divisor
in `2..i`. -/
def isPrimeSpec (i : Nat) : Prop :=
  2 ≤ i ∧ ∀ d, d < i → 2 ≤ d → ¬ d ∣ i

instance isPrimeSpec.dec (i : Nat) : Decidable (isPrimeSpec i) :=
  inferInstanceAs (Decidable (2 ≤ i ∧ ∀ d, d < i → 2 ≤ d → ¬ d ∣ i))

deriving instance DecidableEq for Except

/-- `j` is eliminated once the passes for all eliminating values `d ≤ p` have run:
either `j < 2` (forced at the start of `fill`) or `j = d * k` for some `2 ≤ d ≤ p`,
`2 ≤ k` (marked by the `process_ahead` pass of `d`). -/
def Marked (p j : Nat) : Prop :=
  j < 2 ∨ ∃ d k, 2 ≤ d ∧ d ≤ p ∧ 2 ≤ k ∧ j = d * k

/-- Loop invariant of `fill` on a sieve of limit `max`: after the passes for all
`d ≤ p`, the table has length `max + 1` and records exactly `¬ Marked p`. -/
def Inv (max p : Nat) (s : Sieve) : Prop :=
  s.max = max ∧ s.sieve_table.length = max + 1 ∧
    ∀ j, j ≤ max → (s.sieve_table.getD j false = false ↔ Marked p j)

lemma getD_set (l : List Bool) (i j : Nat) (b : Bool) :
    (l.set i b).getD j false = if i = j ∧ j < l.length then b else l.getD j false := by
  induction l generalizing i j with
  | nil => simp [List.set]
  | cons a t ih =>
    cases i with
    | zero =>
      cases j with
      | zero => simp
      | succ j => simp
    | succ i =>
      cases j with
      | zero => simp
      | succ j =>
        have h := ih i j
        simp only [List.set, List.getD_cons_succ, List.length_cons]
        rw [h]
        by_cases hc : i = j ∧ j < t.length
        · rw [if_pos hc, if_pos (by omega : i + 1 = j + 1 ∧ j + 1 < t.length + 1)]
        · rw [if_neg hc, if_neg (show ¬(i + 1 = j + 1 ∧ j + 1 < t.length + 1) by omega)]

lemma getD_replicate (n j : Nat) :
    (List.replicate n true).getD j false = decide (j < n) := by
  induction n generalizing j with
  | zero => simp
  | succ n ih =>
    cases j with
    | zero => simp [List.replicate]
    | succ j =>
      simp only [List.replicate, List.getD_cons_succ, ih]
      by_cases hc : j < n
      · simp [hc, Nat.succ_lt_succ_iff]
      · simp [hc, Nat.succ_lt_succ_iff]

lemma getD_eq_of_get? {l : List Bool} {i : Nat} {b : Bool} (h : l.get? i = some b) :
    l.getD i false = b := by
  rw [List.get?_eq_getElem?] at h
  simp [h]

lemma get?_eq_some_getD {l : List Bool} {i : Nat} (h : i < l.length) :
    l.get? i = some (l.getD i false) := by
  simp [List.get?_eq_getElem?, List.getElem?_eq_getElem h]

lemma setIdx_length {l l' : List Bool} {i : Nat} {b : Bool} (h : setIdx l i b = some l') :
    l'.length = l.length := by
  unfold setIdx at h
  split at h
  · injection h with h
    subst h
    exact List.length_set l i b
  · cases h

lemma setIdx_eq_some {l : List Bool} {i : Nat} (b : Bool) (h : i < l.length) :
    setIdx l i b = some (l.set i b) := by
  simp [setIdx, h]

lemma markMultiples_length (target max : Nat) :
    ∀ fuel cur t r, markMultiples target max fuel cur t = some r → r.length = t.length := by
  intro fuel
  induction fuel with
  | zero => intro cur t r h; cases h
  | succ fuel ih =>
    intro cur t r h
    simp only [markMultiples] at h
    by_cases hc : cur ≤ max
    · rw [if_pos hc] at h
      cases hset : setIdx t cur false with
      | none => rw [hset] at h; cases h
      | some t2 =>
        rw [hset] at h
        exact (ih _ _ _ h).trans (setIdx_length hset)
    · rw [if_neg hc] at h
      injection h with h
      subst h
      rfl

lemma process_ahead_fields {s s' : Sieve} {i : Nat} (h : process_ahead s i = some s') :
    s'.max = s.max ∧ s'.filled = s.filled ∧ s'.sieve_table.length = s.sieve_table.length := by
  unfold process_ahead at h
  cases hget : getIdx s.sieve_table i with
  | none => rw [hget] at h; cases h
  | some b =>
    rw [hget] at h
    dsimp only at h
    by_cases hb : !b
    · rw [if_pos hb] at h
      injection h with h
      subst h
      exact ⟨rfl, rfl, rfl⟩
    · rw [if_neg hb] at h
      cases hmark : markMultiples i s.max (s.max + 1) (2 * i) s.sieve_table with
      | none => rw [hmark] at h; cases h
      | some t =>
        rw [hmark] at h
        dsimp only at h
        injection h with h
        subst h
        exact ⟨rfl, rfl, markMultiples_length _ _ _ _ _ _ hmark⟩

lemma fillLoop_fields :
    ∀ count i (s s' : Sieve), fillLoop s i count = some s' →
      s'.max = s.max ∧ s'.filled = s.filled ∧ s'.sieve_table.length = s.sieve_table.length := by
  intro count
  induction count with
  | zero =>
    intro i s s' h
    injection h with h
    subst h
    exact ⟨rfl, rfl, rfl⟩
  | succ count ih =>
    intro i s s' h
    simp only [fillLoop] at h
    cases hp : process_ahead s i with
    | none => rw [hp] at h; cases h
    | some s1 =>
      rw [hp] at h
      dsimp only at h
      obtain ⟨h1, h2, h3⟩ := process_ahead_fields hp
      obtain ⟨g1, g2, g3⟩ := ih _ _ _ h
      exact ⟨g1.trans h1, g2.trans h2, g3.trans h3⟩

lemma fill_fields {s s' : Sieve} (h : fill s = some s') :
    s'.max = s.max ∧ s'.filled = true ∧ s'.sieve_table.length = s.sieve_table.length := by
  unfold fill at h
  by_cases hf : s.filled
  · rw [if_pos hf] at h
    injection h with h
    subst h
    exact ⟨rfl, hf, rfl⟩
  · rw [if_neg hf] at h
    cases h0 : setIdx s.sieve_table 0 false with
    | none => rw [h0] at h; cases h
    | some t0 =>
      rw [h0] at h
      dsimp only at h
      cases h1 : setIdx t0 1 false with
      | none => rw [h1] at h; cases h
      | some t1 =>
        rw [h1] at h
        dsimp only at h
        cases hl : fillLoop { s with sieve_table := t1 } 2 (natSqrt s.max - 1) with
        | none => rw [hl] at h; cases h
        | some s2 =>
          rw [hl] at h
          dsimp only at h
          injection h with h
          subst h
          obtain ⟨g1, _, g3⟩ := fillLoop_fields _ _ _ _ hl
          refine ⟨g1, rfl, ?_⟩
          simp only [g3]
          exact (setIdx_length h1).trans (setIdx_length h0)

lemma sqrtGo_le (n : Nat) : ∀ r, sqrtGo n r ≤ r := by
  intro r
  induction r with
  | zero => simp [sqrtGo]
  | succ r ih =>
    simp only [sqrtGo]
    by_cases h : (r + 1) * (r + 1) ≤ n
    · rw [if_pos h]
    · rw [if_neg h]
      omega

lemma sqrtGo_sq_le (n : Nat) : ∀ r, sqrtGo n r * sqrtGo n r ≤ n := by
  intro r
  induction r with
  | zero => simp [sqrtGo]
  | succ r ih =>
    simp only [sqrtGo]
    by_cases h : (r + 1) * (r + 1) ≤ n
    · rw [if_pos h]
      exact h
    · rw [if_neg h]
      exact ih

lemma le_sqrtGo (n : Nat) : ∀ r m, m ≤ r → m * m ≤ n → m ≤ sqrtGo n r := by
  intro r
  induction r with
  | zero =>
    intro m h1 _
    simpa [sqrtGo] using h1
  | succ r ih =>
    intro m h1 h2
    simp only [sqrtGo]
    by_cases h : (r + 1) * (r + 1) ≤ n
    · rw [if_pos h]
      exact h1
    · rw [if_neg h]
      have hne : m ≠ r + 1 := fun he => h (he ▸ h2)
      exact ih m (by omega) h2

lemma le_natSqrt {m n : Nat} : m ≤ natSqrt n ↔ m * m ≤ n := by
  constructor
  · intro h
    exact Nat.le_trans (Nat.mul_le_mul h h) (sqrtGo_sq_le n n)
  · intro h
    cases m with
    | zero => exact Nat.zero_le _
    | succ m' =>
      have hmm : m' + 1 ≤ (m' + 1) * (m' + 1) :=
        Nat.le_mul_of_pos_left _ (Nat.succ_pos m')
      exact le_sqrtGo n n (m' + 1) (Nat.le_trans hmm h) h

lemma natSqrt_le_self (n : Nat) : natSqrt n ≤ n :=
  sqrtGo_le n n

lemma one_le_natSqrt {n : Nat} (h : 1 ≤ n) : 1 ≤ natSqrt n :=
  le_natSqrt.mpr (by simpa)

lemma markMultiples_spec {target max : Nat} (htarget : 1 ≤ target) :
    ∀ fuel cur (t : List Bool), 1 ≤ fuel → max + 2 ≤ fuel + cur → max < t.length →
      ∃ r, markMultiples target max fuel cur t = some r ∧ r.length = t.length ∧
        ∀ j, (r.getD j false = false ↔
          (t.getD j false = false ∨ (cur ≤ j ∧ j ≤ max ∧ target ∣ (j - cur)))) := by
  intro fuel
  induction fuel with
  | zero =>
    intro cur t h1 _ _
    omega
  | succ fuel ih =>
    intro cur t _ h2 hlen
    by_cases hc : cur ≤ max
    · have hcl : cur < t.length := by omega
      have hfuel1 : 1 ≤ fuel := by omega
      have h2' : max + 2 ≤ fuel + (cur + target) := by omega
      have hlen' : max < (t.set cur false).length := by
        simpa [List.length_set] using hlen
      obtain ⟨r, hr, hrlen, hrspec⟩ := ih (cur + target) (t.set cur false) hfuel1 h2' hlen'
      refine ⟨r, ?_, by simpa [List.length_set] using hrlen, ?_⟩
      · simp only [markMultiples, if_pos hc, setIdx_eq_some false hcl]
        exact hr
      · intro j
        rw [hrspec j, getD_set]
        constructor
        · rintro (hx | ⟨hx1, hx2, k, hk⟩)
          · by_cases hcj : cur = j ∧ j < t.length
            · exact Or.inr ⟨Nat.le_of_eq hcj.1, by omega, by rw [← hcj.1]; simp⟩
            · rw [if_neg hcj] at hx
              exact Or.inl hx
          · refine Or.inr ⟨by omega, hx2, ⟨k + 1, ?_⟩⟩
            rw [Nat.mul_succ]
            omega
        · rintro (hx | ⟨hx1, hx2, k, hk⟩)
          · by_cases hcj : cur = j ∧ j < t.length
            · exact Or.inl (by rw [if_pos hcj])
            · exact Or.inl (by rw [if_neg hcj]; exact hx)
          · cases k with
            | zero =>
              have hj : j = cur := by omega
              exact Or.inl (by rw [if_pos ⟨hj.symm, by omega⟩])
            | succ k' =>
              rw [Nat.mul_succ] at hk
              exact Or.inr ⟨by omega, hx2, ⟨k', by omega⟩⟩
    · refine ⟨t, ?_, rfl, ?_⟩
      · simp only [markMultiples, if_neg hc]
      · intro j
        constructor
        · exact Or.inl
        · rintro (hx | ⟨hx1, hx2, _⟩)
          · exact hx
          · omega

lemma marked_mono {p q j : Nat} (hpq : p ≤ q) (h : Marked p j) : Marked q j := by
  rcases h with h | ⟨d, k, hd2, hdp, hk2, hj⟩
  · exact Or.inl h
  · exact Or.inr ⟨d, k, hd2, Nat.le_trans hdp hpq, hk2, hj⟩

lemma marked_pred_of_comp {i j : Nat} (h2 : 2 ≤ i) (hmi : Marked (i - 1) i)
    (hm : Marked i j) : Marked (i - 1) j := by
  rcases hm with hj | ⟨d, k, hd2, hdi, hk2, hj⟩
  · exact Or.inl hj
  · by_cases hdi' : d ≤ i - 1
    · exact Or.inr ⟨d, k, hd2, hdi', hk2, hj⟩
    · have hdeq : d = i := by omega
      subst hdeq
      rcases hmi with hlt | ⟨d', k', hd'2, hd'le, hk'2, hieq⟩
      · omega
      · refine Or.inr ⟨d', k' * k, hd'2, hd'le, ?_, ?_⟩
        · exact Nat.le_trans hk'2 (Nat.le_mul_of_pos_right _ (by omega))
        · rw [hj, hieq, Nat.mul_assoc]

lemma marked_succ_iff {max i j : Nat} (h2 : 2 ≤ i) (hj : j ≤ max) :
    (Marked (i - 1) j ∨ (2 * i ≤ j ∧ j ≤ max ∧ i ∣ (j - 2 * i))) ↔ Marked i j := by
  constructor
  · rintro (hm | ⟨h2i, hjm, k, hk⟩)
    · exact marked_mono (by omega) hm
    · refine Or.inr ⟨i, k + 2, by omega, Nat.le_refl i, by omega, ?_⟩
      have hik : i * (k + 2) = i * k + 2 * i := by ring
      omega
  · rintro (hlt | ⟨d, k, hd2, hdi, hk2, hjdk⟩)
    · exact Or.inl (Or.inl hlt)
    · by_cases hdi' : d ≤ i - 1
      · exact Or.inl (Or.inr ⟨d, k, hd2, hdi', hk2, hjdk⟩)
      · have hdeq : d = i := by omega
        subst hdeq
        obtain ⟨m, hm⟩ := Nat.exists_eq_add_of_le hk2
        refine Or.inr ⟨?_, hj, ⟨m, ?_⟩⟩
        · have : d * k = d * 2 + d * m := by rw [hm]; ring
          omega
        · have : d * k = d * 2 + d * m := by rw [hm]; ring
          omega

lemma process_ahead_inv {max i : Nat} {s : Sieve} (h2 : 2 ≤ i) (hi : i ≤ max)
    (hInv : Inv max (i - 1) s) :
    ∃ s', process_ahead s i = some s' ∧ Inv max i s' ∧ s'.filled = s.filled := by
  obtain ⟨hmax, hlen, htab⟩ := hInv
  subst hmax
  have hil : i < s.sieve_table.length := by omega
  have hget : getIdx s.sieve_table i = some (s.sieve_table.getD i false) :=
    get?_eq_some_getD hil
  cases hb : s.sieve_table.getD i false with
  | false =>
    refine ⟨s, ?_, ⟨rfl, hlen, ?_⟩, rfl⟩
    · unfold process_ahead
      rw [hget, hb]
      simp
    · intro j hj
      rw [htab j hj]
      have hmi : Marked (i - 1) i := (htab i hi).mp hb
      exact ⟨marked_mono (by omega), marked_pred_of_comp h2 hmi⟩
  | true =>
    have hmark := @markMultiples_spec i s.max (by omega) (s.max + 1) (2 * i) s.sieve_table
      (by omega) (by omega) (by omega)
    obtain ⟨r, hr, hrlen, hrspec⟩ := hmark
    refine ⟨{ s with sieve_table := r }, ?_, ⟨rfl, by simpa [hrlen], ?_⟩, rfl⟩
    · unfold process_ahead
      rw [hget, hb]
      simp only [Bool.not_true, Bool.false_eq_true, if_false]
      rw [hr]
    · intro j hj
      have hspec := hrspec j
      rw [htab j hj] at hspec
      dsimp only
      rw [hspec]
      exact marked_succ_iff h2 hj

lemma fillLoop_inv {max : Nat} :
    ∀ count i (s : Sieve), 2 ≤ i → i + count ≤ max + 1 → Inv max (i - 1) s →
      ∃ s', fillLoop s i count = some s' ∧ Inv max (i + count - 1) s' ∧
        s'.filled = s.filled := by
  intro count
  induction count with
  | zero =>
    intro i s h2 hle hInv
    exact ⟨s, rfl, by simpa using hInv, rfl⟩
  | succ count ih =>
    intro i s h2 hle hInv
    have hi : i ≤ max := by omega
    obtain ⟨s1, hp, hInv1, hf1⟩ := process_ahead_inv h2 hi hInv
    have hInv1' : Inv max ((i + 1) - 1) s1 := by simpa using hInv1
    obtain ⟨s', hl, hInv', hf'⟩ := ih (i + 1) s1 (by omega) (by omega) hInv1'
    refine ⟨s', ?_, ?_, hf'.trans hf1⟩
    · simp only [fillLoop, hp]
      exact hl
    · have he : i + 1 + count - 1 = i + (count + 1) - 1 := by omega
      rwa [he] at hInv'

lemma marked_one_iff {j : Nat} : Marked 1 j ↔ j < 2 := by
  constructor
  · rintro (h | ⟨d, k, hd2, hd1, _, _⟩)
    · exact h
    · omega
  · exact Or.inl

lemma marked_natSqrt_iff {max j : Nat} (hj : j ≤ max) :
    Marked (natSqrt max) j ↔ ¬ isPrimeSpec j := by
  constructor
  · rintro (hlt | ⟨d, k, hd2, hdq, hk2, hjdk⟩)
    · exact fun hp => absurd hp.1 (by omega)
    · intro hp
      have hdvd : d ∣ j := ⟨k, hjdk⟩
      have h2d : d * 2 ≤ d * k := Nat.mul_le_mul_left d hk2
      exact hp.2 d (by omega) hd2 hdvd
  · intro hnp
    by_cases hj2 : j < 2
    · exact Or.inl hj2
    · have h2j : 2 ≤ j := by omega
      have hex : ∃ d, d < j ∧ 2 ≤ d ∧ d ∣ j := by
        by_contra hno
        push_neg at hno
        exact hnp ⟨h2j, fun d hdj hd2 => hno d hdj hd2⟩
      obtain ⟨d, hdj, hd2, k, hk⟩ := hex
      have hk2 : 2 ≤ k := by
        by_contra hlt
        push_neg at hlt
        interval_cases k
        · rw [Nat.mul_zero] at hk
          omega
        · rw [Nat.mul_one] at hk
          omega
      rcases Nat.le_total d k with hdk | hkd
      · refine Or.inr ⟨d, k, hd2, ?_, hk2, hk⟩
        apply le_natSqrt.mpr
        calc d * d ≤ d * k := Nat.mul_le_mul_left d hdk
        _ = j := hk.symm
        _ ≤ max := hj
      · refine Or.inr ⟨k, d, hk2, ?_, hd2, by rw [hk, Nat.mul_comm]⟩
        apply le_natSqrt.mpr
        calc k * k ≤ k * d := Nat.mul_le_mul_left k hkd
        _ = d * k := Nat.mul_comm k d
        _ = j := hk.symm
        _ ≤ max := hj

lemma fill_unfilled_spec {max : Nat} (hmax : 1 ≤ max) :
    ∃ s', fill (unfilled max) = some s' ∧ s'.max = max ∧ s'.filled = true ∧
      s'.sieve_table.length = max + 1 ∧
      ∀ j, j ≤ max → (s'.sieve_table.getD j false = true ↔ isPrimeSpec j) := by
  have h0 : setIdx (List.replicate (max + 1) true) 0 false
      = some ((List.replicate (max + 1) true).set 0 false) :=
    setIdx_eq_some false (by simp)
  have h1 : setIdx ((List.replicate (max + 1) true).set 0 false) 1 false
      = some (((List.replicate (max + 1) true).set 0 false).set 1 false) :=
    setIdx_eq_some false (by simp; omega)
  have hbase : Inv max 1
      { max := max,
        sieve_table := ((List.replicate (max + 1) true).set 0 false).set 1 false,
        filled := false } := by
    refine ⟨rfl, by simp, ?_⟩
    intro j hj
    dsimp only
    rw [getD_set, getD_set, getD_replicate, marked_one_iff]
    simp only [List.length_set, List.length_replicate]
    rcases Nat.lt_or_ge j 2 with hj2 | hj2
    · interval_cases j
      · rw [if_neg (by omega), if_pos (by omega)]
        simp
      · rw [if_pos (by omega)]
        simp
    · rw [if_neg (by omega), if_neg (by omega)]
      have hjlt : j < max + 1 := by omega
      simp [hjlt]
      omega
  have hq1 : 1 ≤ natSqrt max := one_le_natSqrt hmax
  have hqm : natSqrt max ≤ max := natSqrt_le_self max
  obtain ⟨s2, hloop, hInv2, hfil2⟩ := @fillLoop_inv max (natSqrt max - 1) 2
    { max := max,
      sieve_table := ((List.replicate (max + 1) true).set 0 false).set 1 false,
      filled := false }
    (by omega) (by omega) (by simpa using hbase)
  rw [show 2 + (natSqrt max - 1) - 1 = natSqrt max by omega] at hInv2
  refine ⟨{ s2 with filled := true }, ?_, hInv2.1, rfl, hInv2.2.1, ?_⟩
  · show fill (unfilled max) = some { s2 with filled := true }
    unfold fill
    simp only [unfilled, Bool.false_eq_true, if_false, h0, h1, hloop]
  · intro j hj
    have hiff := hInv2.2.2 j hj
    dsimp only
    constructor
    · intro htr
      have hnm : ¬ Marked (natSqrt max) j := by
        intro hm
        have hf := hiff.mpr hm
        rw [htr] at hf
        cases hf
      exact not_not.mp (fun hnp => hnm ((marked_natSqrt_iff hj).mpr hnp))
    · intro hp
      cases hb : s2.sieve_table.getD j false with
      | false => exact absurd ((marked_natSqrt_iff hj).mp (hiff.mp hb)) (not_not.mpr hp)
      | true => rfl

lemma filterGo_ok (s : Sieve) (hf : s.filled = true)
    (hlen : s.sieve_table.length = s.max + 1) :
    ∀ l acc, (∀ i ∈ l, i ≤ s.max) →
      filterGo s l acc
        = some (Except.ok (acc ++ l.filter fun i => s.sieve_table.getD i false)) := by
  intro l
  induction l with
  | nil =>
    intro acc _
    simp [filterGo]
  | cons i rest ih =>
    intro acc hb
    have hi : i ≤ s.max := hb i (List.mem_cons_self i rest)
    have hlook : lookup s i = some (Except.ok (s.sieve_table.getD i false)) := by
      unfold lookup getIdx
      rw [hf]
      simp only [Bool.not_true, Bool.false_eq_true, if_false]
      rw [if_neg (by omega), get?_eq_some_getD (by omega)]
    have hrest := fun j hj => hb j (List.mem_cons_of_mem i hj)
    cases hb2 : s.sieve_table.getD i false with
    | true =>
      rw [hb2] at hlook
      have hb2' : s.sieve_table[i]?.getD false = true := by simpa using hb2
      simp only [filterGo, hlook]
      rw [ih (acc ++ [i]) hrest]
      simp [List.filter_cons, hb2']
    | false =>
      rw [hb2] at hlook
      have hb2' : s.sieve_table[i]?.getD false = false := by simpa using hb2
      simp only [filterGo, hlook]
      rw [ih acc hrest]
      simp [List.filter_cons, hb2']

lemma filterGo_error (s : Sieve) (x : Nat) (e : SieveError) (l2 : List Nat)
    (hx : lookup s x = some (Except.error e)) :
    ∀ l1 acc, (∀ i ∈ l1, ∃ b, lookup s i = some (Except.ok b)) →
      filterGo s (l1 ++ x :: l2) acc = some (Except.error e) := by
  intro l1
  induction l1 with
  | nil =>
    intro acc _
    simp only [List.nil_append, filterGo, hx]
  | cons i rest ih =>
    intro acc hb
    obtain ⟨b, hbi⟩ := hb i (List.mem_cons_self i rest)
    have hrest := fun j hj => hb j (List.mem_cons_of_mem i hj)
    cases b with
    | true =>
      simp only [List.cons_append, filterGo, hbi]
      exact ih (acc ++ [i]) hrest
    | false =>
      simp only [List.cons_append, filterGo, hbi]
      exact ih acc hrest

/-- Claim C1: for every limit, after `fill()` completes on a sieve of that limit,
`lookup(i)` returns `Ok(true)` for every `i` in `0..=limit` if and only if `i` is prime
(`i ≥ 2` with no divisor in `2..i`); in particular entries 0 and 1 are false. -/
theorem fill_populates_primality (max : Nat) (s' : Sieve)
    (hfill : fill (unfilled max) = some s') (i : Nat) (hi : i ≤ max) :
    lookup s' i = some (Except.ok (decide (isPrimeSpec i))) := by
  cases max with
  | zero =>
    have h0 : fill (unfilled 0) = none := by decide
    rw [h0] at hfill
    cases hfill
  | succ m =>
    obtain ⟨t', heq, hm, hf, hlen, hiff⟩ := fill_unfilled_spec (Nat.succ_pos m)
    rw [heq] at hfill
    injection hfill with hfill
    subst hfill
    have hgd : t'.sieve_table.getD i false = decide (isPrimeSpec i) := by
      have hiffi := hiff i hi
      cases hb : t'.sieve_table.getD i false with
      | false =>
        have hp : ¬ isPrimeSpec i := by
          intro hp
          rw [hiffi.mpr hp] at hb
          cases hb
        exact (decide_eq_false hp).symm
      | true => exact (decide_eq_true (hiffi.mp hb)).symm
    unfold lookup getIdx
    rw [hf]
    simp only [Bool.not_true, Bool.false_eq_true, if_false]
    rw [hm, if_neg (by omega), get?_eq_some_getD (by omega), hgd]

/-- Witness for C1 at limit 10, query 5 (a prime). -/
theorem fill_populates_primality_witness :
    lookup ((fill (unfilled 10)).getD (unfilled 10)) 5
      = some (Except.ok (decide (isPrimeSpec 5))) :=
  fill_populates_primality 10 ((fill (unfilled 10)).getD (unfilled 10)) (by decide) 5
    (by decide)

/-- Claim C2: a sieve in the `Filled` state is left exactly as it is by another
`fill()` call, and calling `fill` twice produces the same state as calling it once. -/
theorem fill_idempotent :
    (∀ s : Sieve, s.filled = true → fill s = some s) ∧
    (∀ s s' : Sieve, fill s = some s' → fill s' = some s') := by
  have h1 : ∀ s : Sieve, s.filled = true → fill s = some s := by
    intro s hf
    unfold fill
    rw [hf]
    simp
  exact ⟨h1, fun s s' hfill => h1 s' (fill_fields hfill).2.1⟩

/-- Witness for C2: `fill` twice on the limit-1 sieve equals `fill` once. -/
theorem fill_idempotent_witness :
    fill { max := 1, sieve_table := [false, false], filled := true }
      = some { max := 1, sieve_table := [false, false], filled := true } :=
  fill_idempotent.1 { max := 1, sieve_table := [false, false], filled := true } rfl

/-- Claim C3: `lookup` on an unfilled sieve (`populated == false`) fails with the
`NotPopulated` error for every target, in-bounds or not, and never reads the table. -/
theorem lookup_unpopulated (s : Sieve) (target : Nat) (hf : s.filled = false) :
    lookup s target = some (Except.error SieveError.notPopulated) := by
  unfold lookup
  rw [hf]
  simp

/-- Witness for C3: in-bounds query on an unfilled sieve of limit 10. -/
theorem lookup_unpopulated_witness :
    lookup (unfilled 10) 5 = some (Except.error SieveError.notPopulated) :=
  lookup_unpopulated (unfilled 10) 5 rfl

/-- Claim C4: on a filled sieve, `lookup(target)` fails with `OutOfBounds` iff
`target > limit`, the error carrying both the offending value and the configured
limit; otherwise it succeeds with the table flag at index `target`. -/
theorem lookup_bounds (s : Sieve) (target : Nat) (hf : s.filled = true)
    (hlen : s.sieve_table.length = s.max + 1) :
    (s.max < target →
      lookup s target = some (Except.error (SieveError.outOfBounds target s.max))) ∧
    (target ≤ s.max →
      lookup s target = some (Except.ok (s.sieve_table.getD target false))) := by
  constructor
  · intro hgt
    unfold lookup
    rw [hf]
    simp only [Bool.not_true, Bool.false_eq_true, if_false]
    rw [if_pos hgt]
  · intro hle
    unfold lookup getIdx
    rw [hf]
    simp only [Bool.not_true, Bool.false_eq_true, if_false]
    rw [if_neg (by omega), get?_eq_some_getD (by omega)]

/-- Witness for C4: limit-10 sieve queried at 100 reports `OutOfBounds 100 10`. -/
theorem lookup_bounds_witness :
    lookup ((fill (unfilled 10)).getD (unfilled 10)) 100
      = some (Except.error (SieveError.outOfBounds 100 10)) :=
  (lookup_bounds ((fill (unfilled 10)).getD (unfilled 10)) 100 (by decide)
      (by decide)).1 (by decide)

/-- Claim C5: on a filled sieve with all candidates in bounds, `filter` succeeds with
exactly the stable subsequence of candidates whose table flag is true (order and
multiplicity preserved). -/
theorem filter_stable_primes (s : Sieve) (hf : s.filled = true)
    (hlen : s.sieve_table.length = s.max + 1)
    (l : List Nat) (hb : ∀ i ∈ l, i ≤ s.max) :
    Sieve.filter s l
      = some (Except.ok (l.filter fun i => s.sieve_table.getD i false)) := by
  unfold Sieve.filter
  rw [filterGo_ok s hf hlen l [] hb]
  simp

/-- Witness for C5: the limit-15 sieve filters `[1,2,3,4,5,6]` to `[2,3,5]`. -/
theorem filter_stable_primes_witness :
    Sieve.filter ((fill (unfilled 15)).getD (unfilled 15)) [1, 2, 3, 4, 5, 6]
      = some (Except.ok [2, 3, 5]) :=
  (filter_stable_primes ((fill (unfilled 15)).getD (unfilled 15)) (by decide) (by decide)
      [1, 2, 3, 4, 5, 6] (by decide)).trans (by decide)

/-- Claim C6: if the lookup of some candidate fails, `filter` fails with that same
error even when all earlier candidates had successful lookups — no partial result. -/
theorem filter_error_propagation (s : Sieve) (l1 l2 : List Nat) (x : Nat) (e : SieveError)
    (h1 : ∀ i ∈ l1, ∃ b, lookup s i = some (Except.ok b))
    (hx : lookup s x = some (Except.error e)) :
    Sieve.filter s (l1 ++ x :: l2) = some (Except.error e) :=
  filterGo_error s x e l2 hx l1 [] h1

/-- Witness for C6: on the limit-15 sieve, `[2,3]` succeed, then 100 is out of
bounds; `filter [2,3,100,5]` fails with that error. -/
theorem filter_error_propagation_witness :
    Sieve.filter ((fill (unfilled 15)).getD (unfilled 15)) ([2, 3] ++ 100 :: [5])
      = some (Except.error (SieveError.outOfBounds 100 15)) :=
  filter_error_propagation ((fill (unfilled 15)).getD (unfilled 15)) [2, 3] [5] 100
    (SieveError.outOfBounds 100 15) (by decide) (by decide)

/-- Claim C7 (refuted by the code): `unfilled 0` does allocate a table of size 1 and
`unfilled 1` one of size 2, and `fill` completes normally at limit 1 — but at
limit 0 the unconditional write `self.sieve_table[1] = false` in `fill` indexes out
of bounds and panics (modelled as `none`), so `fill` does not complete normally. -/
theorem fill_limit_zero_panics :
    (unfilled 0).sieve_table.length = 1 ∧
    (unfilled 1).sieve_table.length = 2 ∧
    fill (unfilled 0) = none ∧
    fill (unfilled 1) = some { max := 1, sieve_table := [false, false], filled := true } :=
  ⟨by decide, by decide, by decide, by decide⟩

/-- Claim C8: `unfilled(limit)` allocates `limit + 1` flags, all true, unpopulated;
`fill` never changes the `max` field or the table length (`lookup` and `filter`
take the sieve immutably and return no sieve at all). -/
theorem sieve_struct_invariant :
    (∀ limit : Nat, (unfilled limit).max = limit ∧ (unfilled limit).filled = false ∧
      (unfilled limit).sieve_table = List.replicate (limit + 1) true ∧
      (unfilled limit).sieve_table.length = limit + 1) ∧
    (∀ s s' : Sieve, fill s = some s' →
      s'.max = s.max ∧ s'.sieve_table.length = s.sieve_table.length) := by
  constructor
  · intro limit
    exact ⟨rfl, rfl, rfl, by simp [unfilled]⟩
  · intro s s' h
    obtain ⟨h1, _, h3⟩ := fill_fields h
    exact ⟨h1, h3⟩

/-- Witness for C8 at limit 4. -/
theorem sieve_struct_invariant_witness :
    (unfilled 4).sieve_table.length = 4 + 1 ∧
    ((fill (unfilled 4)).getD (unfilled 4)).max = (unfilled 4).max ∧
    ((fill (unfilled 4)).getD (unfilled 4)).sieve_table.length
      = (unfilled 4).sieve_table.length :=
  ⟨(sieve_struct_invariant.1 4).2.2.2,
    (sieve_struct_invariant.2 (unfilled 4) ((fill (unfilled 4)).getD (unfilled 4))
      (by decide)).1,
    (sieve_struct_invariant.2 (unfilled 4) ((fill (unfilled 4)).getD (unfilled 4))
      (by decide)).2⟩

/-- Claim C9: on an unfilled sieve queried out of bounds, `NotPopulated` wins: the
populated check precedes the bounds check, so the result is not `OutOfBounds`. -/
theorem lookup_error_precedence (s : Sieve) (target : Nat) (hf : s.filled = false)
    (hgt : s.max < target) :
    lookup s target = some (Except.error SieveError.notPopulated) ∧
    lookup s target ≠ some (Except.error (SieveError.outOfBounds target s.max)) := by
  have h : lookup s target = some (Except.error SieveError.notPopulated) := by
    unfold lookup
    rw [hf]
    simp
  refine ⟨h, ?_⟩
  rw [h]
  simp

/-- Witness for C9: unfilled sieve of limit 3 queried at 10. -/
theorem lookup_error_precedence_witness :
    lookup (unfilled 3) 10 = some (Except.error SieveError.notPopulated) ∧
    lookup (unfilled 3) 10 ≠ some (Except.error (SieveError.outOfBounds 10 3)) :=
  lookup_error_precedence (unfilled 3) 10 rfl (by decide)

/-- Claim C10: `filter` of the empty candidate list succeeds with the empty result on
every sieve, filled or not — no lookup runs, so no `NotPopulated` error is raised. -/
theorem filter_empty_ok (s : Sieve) : Sieve.filter s [] = some (Except.ok []) :=
  rfl

end PrimeSieve
